import Mathlib

/-!
Shallow embedding of the jitter-buffered real-time playback pipeline of the
`pipewire-streaming` repository, covering its two JavaScript playback clients:

* `src/clients/simple-js/web/index.js` — namespace `SimpleJs`;
* `src/web/index.js` — namespace `RootWeb`.

Unit convention: device-clock readings, scheduled start times and frame
durations are modelled in integer microseconds (`ℤ`).  The source keeps
seconds in JS numbers; every constant that matters here is an exact multiple
of one microsecond: the resynchronization margin `0.005 s = 5000 μs`, one
nominal `5 ms` frame `= 5000 μs`.  The one place where the source itself
multiplies a seconds value by `10^6` (the root client's chunk timestamp) is
modelled over `ℚ` with the multiplication kept explicit.
-/

namespace PipewireStreaming

/-- Nominal frame duration in milliseconds: `FRAME_DURATION_MS = 5` in
`src/clients/simple-js/web/index.js` (the root client's `frameDurationMs`
has the same value). -/
def FRAME_DURATION_MS : ℕ := 5

/-- The states of a WebCodecs `AudioDecoder` (`audioDecoder.state`). -/
inductive DecoderState where
  | unconfigured
  | configured
  | closed
deriving DecidableEq

/-- An `EncodedAudioChunk` as built by the simple-js receive loop, together
with the receiver-local sequence index (the value of `receivedChunkCount`
when the chunk was created; it is not a wire field).  `timestamp` and
`duration` are in microseconds, as in the source. -/
structure EncodedAudioChunk where
  index : ℕ
  timestamp : ℕ
  duration : ℕ
  dataLen : ℕ
deriving DecidableEq

/-- One result of `await reader.read()` in the receive loop, together with
the decoder state observed at that moment (`audioDecoder.state` is external
mutable state and may change between reads).  `err` models a transport-level
error thrown by the read, which lands in the outer `catch`. -/
inductive ReadEvent where
  | done
  | err
  | data (len : ℕ) (state : DecoderState)
deriving DecidableEq

/-- How the receive loop ended: `closed` through the `done` branch (`break`),
`errored` through a thrown transport error, `pending` when the modelled event
list is exhausted while the loop would still be reading. -/
inductive LoopExit where
  | closed
  | errored
  | pending
deriving DecidableEq

namespace SimpleJs

/-- Line 80 of `src/clients/simple-js/web/index.js`:
`const scheduleTime = (nextPlayTime < currentTime) ? currentTime + 0.005 : nextPlayTime;`
with `0.005 s = 5000 μs`. -/
def scheduleTimeOf (nextPlayTime currentTime : ℤ) : ℤ :=
  if nextPlayTime < currentTime then currentTime + 5000 else nextPlayTime

/-- The scheduling core of `handleDecodedChunk` (lines 79-83): given the
cursor, the device clock reading and the decoded buffer's duration, returns
the scheduled start (`sourceNode.start(scheduleTime)`) and the updated
cursor (`nextPlayTime = scheduleTime + audioBuffer.duration`). -/
def handleDecodedChunk (nextPlayTime currentTime duration : ℤ) : ℤ × ℤ :=
  (scheduleTimeOf nextPlayTime currentTime,
   scheduleTimeOf nextPlayTime currentTime + duration)

/-- Line 46 (`initAudio`): `nextPlayTime = audioContext.currentTime;` —
the cursor is reset to the device clock at session start. -/
def initNextPlayTime (currentTime : ℤ) : ℤ := currentTime

/-- A run of the playback scheduler over a sequence of decoded frames.  Each
frame is the pair (device clock reading when its output callback fires,
frame duration); the result lists the scheduled start times in order. -/
def runSched (nextPlayTime : ℤ) : List (ℤ × ℤ) → List ℤ
  | [] => []
  | (now, dur) :: rest =>
    (handleDecodedChunk nextPlayTime now dur).1 ::
      runSched (handleDecodedChunk nextPlayTime now dur).2 rest

/-- The cursor value after a run of the playback scheduler. -/
def finalNpt (nextPlayTime : ℤ) : List (ℤ × ℤ) → ℤ
  | [] => nextPlayTime
  | (now, dur) :: rest => finalNpt (handleDecodedChunk nextPlayTime now dur).2 rest

/-- Number of frames of a run that took the resynchronization branch
(`nextPlayTime < currentTime`). -/
def resyncCount (nextPlayTime : ℤ) : List (ℤ × ℤ) → ℕ
  | [] => 0
  | (now, dur) :: rest =>
    (if nextPlayTime < now then 1 else 0) +
      resyncCount (handleDecodedChunk nextPlayTime now dur).2 rest

/-- The successive values taken by the `nextPlayTime` cursor during a run
(initial value first, final value last). -/
def nptTrace (nextPlayTime : ℤ) : List (ℤ × ℤ) → List ℤ
  | [] => [nextPlayTime]
  | (now, dur) :: rest =>
    nextPlayTime :: nptTrace (handleDecodedChunk nextPlayTime now dur).2 rest

/-- Lines 123-131: a non-empty read builds an `EncodedAudioChunk` whose
timestamp is the synthetic value `receivedChunkCount * FRAME_DURATION_MS * 1000`
(μs) and whose duration is `FRAME_DURATION_MS * 1000`; the counter snapshot
is recorded as the chunk's sequence index. -/
def mkChunk (receivedChunkCount : ℕ) (dataLen : ℕ) : EncodedAudioChunk :=
  ⟨receivedChunkCount,
   receivedChunkCount * (FRAME_DURATION_MS * 1000),
   FRAME_DURATION_MS * 1000,
   dataLen⟩

/-- The body of one loop iteration for a `data` read (lines 122-137): a
non-empty read (`value.byteLength > 0`) creates a chunk and increments
`receivedChunkCount`; the chunk is submitted to the decoder only when
`audioDecoder.state === 'configured'`, otherwise it is dropped with a
warning.  Returns (submitted chunk if any, updated counter).  An empty read
does nothing. -/
def processRead (receivedChunkCount : ℕ) (state : DecoderState) (len : ℕ) :
    Option EncodedAudioChunk × ℕ :=
  if 0 < len then
    (if state = DecoderState.configured then some (mkChunk receivedChunkCount len)
     else none,
     receivedChunkCount + 1)
  else (none, receivedChunkCount)

/-- The receive loop of `connectAndReceive` (lines 116-139): `done` breaks
out of the loop (stream closed by the server), a thrown transport error
aborts into the outer `catch`, and a `data` read is handled by
`processRead`.  Returns the chunks submitted to the decoder, in order, and
how the loop ended. -/
def recvLoop (receivedChunkCount : ℕ) :
    List ReadEvent → List EncodedAudioChunk × LoopExit
  | [] => ([], LoopExit.pending)
  | ReadEvent.done :: _ => ([], LoopExit.closed)
  | ReadEvent.err :: _ => ([], LoopExit.errored)
  | ReadEvent.data len st :: rest =>
    ((processRead receivedChunkCount st len).1.toList ++
       (recvLoop (processRead receivedChunkCount st len).2 rest).1,
     (recvLoop (processRead receivedChunkCount st len).2 rest).2)

end SimpleJs

namespace RootWeb

/-- Line 55 of `src/web/index.js`:
`const startAt = Math.max(nextPlayTime, audioContext.currentTime);` —
note: no safety margin is added on underrun. -/
def startAtOf (nextPlayTime currentTime : ℤ) : ℤ :=
  max nextPlayTime currentTime

/-- The scheduling core of the root client's `handleDecodedChunk`
(lines 55-58): returns the scheduled start (`sourceNode.start(startAt)`) and
the updated cursor (`nextPlayTime = startAt + audioBuffer.duration`). -/
def handleDecodedChunk (nextPlayTime currentTime duration : ℤ) : ℤ × ℤ :=
  (startAtOf nextPlayTime currentTime,
   startAtOf nextPlayTime currentTime + duration)

/-- Line 34 (`initAudio`): `nextPlayTime = audioContext.currentTime;`. -/
def initNextPlayTime (currentTime : ℤ) : ℤ := currentTime

/-- A run of the root client's playback scheduler (same conventions as
`SimpleJs.runSched`). -/
def runSched (nextPlayTime : ℤ) : List (ℤ × ℤ) → List ℤ
  | [] => []
  | (now, dur) :: rest =>
    (handleDecodedChunk nextPlayTime now dur).1 ::
      runSched (handleDecodedChunk nextPlayTime now dur).2 rest

/-- The cursor value after a run of the root client's scheduler. -/
def finalNpt (nextPlayTime : ℤ) : List (ℤ × ℤ) → ℤ
  | [] => nextPlayTime
  | (now, dur) :: rest => finalNpt (handleDecodedChunk nextPlayTime now dur).2 rest

/-- Number of frames of a run on which the cursor had fallen behind the
device clock (`nextPlayTime < currentTime`), i.e. on which `Math.max`
clamped the start time to the clock instead of the cursor. -/
def resyncCount (nextPlayTime : ℤ) : List (ℤ × ℤ) → ℕ
  | [] => 0
  | (now, dur) :: rest =>
    (if nextPlayTime < now then 1 else 0) +
      resyncCount (handleDecodedChunk nextPlayTime now dur).2 rest

/-- The successive values taken by the root client's `nextPlayTime` cursor
during a run. -/
def nptTrace (nextPlayTime : ℤ) : List (ℤ × ℤ) → List ℤ
  | [] => [nextPlayTime]
  | (now, dur) :: rest =>
    nextPlayTime :: nptTrace (handleDecodedChunk nextPlayTime now dur).2 rest

/-- Line 94 of `src/web/index.js`: the root client stamps each chunk with
`timestamp: audioContext.currentTime * 1000000` — the device clock reading
(seconds) scaled to microseconds, not a receiver-local sequence counter. -/
def chunkTimestampUs (currentTimeSec : ℚ) : ℚ := currentTimeSec * 1000000

end RootWeb

/-- The underrun-free premise of the gapless-scheduling properties, as a
computable check: at each frame's arrival the device clock reading does not
exceed the current cursor (`now ≤ nextPlayTime`), the cursor advancing by
the frame's duration at each step (which is what both schedulers do in that
case). -/
def noUnderrunB : ℤ → List (ℤ × ℤ) → Bool
  | _, [] => true
  | npt, (now, dur) :: rest => decide (now ≤ npt) && noUnderrunB (npt + dur) rest

/-- A fixed-capacity ring buffer holding its elements oldest-first.

Modelled from the spec: the `circular-queue2` crate under
`src/deps/circular-queue` ships only its `Cargo.toml` manifest in this
repository; the container itself is modelled from spec §3/§4.1: fixed
capacity `C`, occupancy between `0` and `C`, `push` appends and overwrites
the oldest element when full, insertion order = iteration order. -/
structure RingBuffer (α : Type) where
  capacity : ℕ
  data : List α
deriving DecidableEq

/-- Modelled from the spec: `push(item)` — append the new element; when the
buffer is already at capacity this drops the oldest element (classic
ring-buffer overwrite-on-full), expressed uniformly as dropping any excess
beyond `capacity` from the oldest end. -/
def RingBuffer.push {α : Type} (rb : RingBuffer α) (x : α) : RingBuffer α :=
  ⟨rb.capacity, (rb.data ++ [x]).drop (rb.data.length + 1 - rb.capacity)⟩

/-- An empty ring buffer of the given capacity. -/
def RingBuffer.empty (α : Type) (capacity : ℕ) : RingBuffer α :=
  ⟨capacity, []⟩

/-- Repeated `push`, oldest of the pushed items first. -/
def RingBuffer.pushAll {α : Type} (rb : RingBuffer α) (xs : List α) : RingBuffer α :=
  xs.foldl RingBuffer.push rb

/-- `len()`: current occupancy. -/
def RingBuffer.len {α : Type} (rb : RingBuffer α) : ℕ :=
  rb.data.length

/-! Helper lemmas about the two schedulers. -/

/-- Without an underrun the simple-js client takes the gapless branch. -/
theorem simple_scheduleTimeOf_no_underrun (npt now : ℤ) (h : now ≤ npt) :
    SimpleJs.scheduleTimeOf npt now = npt := by
  simp [SimpleJs.scheduleTimeOf, if_neg (not_lt.mpr h)]

/-- Without an underrun the root client's `Math.max` picks the cursor. -/
theorem root_startAtOf_no_underrun (npt now : ℤ) (h : now ≤ npt) :
    RootWeb.startAtOf npt now = npt :=
  max_eq_left h

/-- Without an underrun both clients schedule one frame identically:
start at the cursor, advance the cursor by the duration. -/
theorem handleDecodedChunk_no_underrun (npt now dur : ℤ) (h : now ≤ npt) :
    SimpleJs.handleDecodedChunk npt now dur = (npt, npt + dur) ∧
      RootWeb.handleDecodedChunk npt now dur = (npt, npt + dur) := by
  constructor
  · simp [SimpleJs.handleDecodedChunk, simple_scheduleTimeOf_no_underrun npt now h]
  · simp [RootWeb.handleDecodedChunk, root_startAtOf_no_underrun npt now h]

/-- Unfolding `noUnderrunB` on a cons cell. -/
theorem noUnderrunB_cons (npt now dur : ℤ) (rest : List (ℤ × ℤ)) :
    noUnderrunB npt ((now, dur) :: rest) = true ↔
      now ≤ npt ∧ noUnderrunB (npt + dur) rest = true := by
  simp [noUnderrunB]

/-- Gapless schedule of the simple-js client: with no underrun and all
frames of duration `d`, frame `i` starts at `npt + i·d`. -/
theorem simple_runSched_gapless (d : ℤ) (frames : List (ℤ × ℤ)) :
    ∀ (npt : ℤ), noUnderrunB npt frames = true → (∀ p ∈ frames, p.2 = d) →
      ∀ i : ℕ, i < frames.length →
      (SimpleJs.runSched npt frames)[i]? = some (npt + (i : ℤ) * d) := by
  induction frames with
  | nil => intro npt _ _ i hi; simp at hi
  | cons p rest ih =>
    obtain ⟨now, dur⟩ := p
    intro npt hnu hd i hi
    obtain ⟨hnow, hrest⟩ := (noUnderrunB_cons npt now dur rest).mp hnu
    have hdur : dur = d := hd (now, dur) (List.mem_cons_self _ _)
    subst hdur
    have hstep := (handleDecodedChunk_no_underrun npt now dur hnow).1
    cases i with
    | zero => simp [SimpleJs.runSched, hstep]
    | succ j =>
      have hd' : ∀ p ∈ rest, p.2 = dur := fun q hq => hd q (List.mem_cons_of_mem _ hq)
      have hj : j < rest.length := by simpa using hi
      have hih := ih (npt + dur) hrest hd' j hj
      simp only [SimpleJs.runSched, hstep, List.getElem?_cons_succ, hih]
      congr 1
      push_cast
      ring

/-- Gapless schedule of the root client: same statement as for simple-js. -/
theorem root_runSched_gapless (d : ℤ) (frames : List (ℤ × ℤ)) :
    ∀ (npt : ℤ), noUnderrunB npt frames = true → (∀ p ∈ frames, p.2 = d) →
      ∀ i : ℕ, i < frames.length →
      (RootWeb.runSched npt frames)[i]? = some (npt + (i : ℤ) * d) := by
  induction frames with
  | nil => intro npt _ _ i hi; simp at hi
  | cons p rest ih =>
    obtain ⟨now, dur⟩ := p
    intro npt hnu hd i hi
    obtain ⟨hnow, hrest⟩ := (noUnderrunB_cons npt now dur rest).mp hnu
    have hdur : dur = d := hd (now, dur) (List.mem_cons_self _ _)
    subst hdur
    have hstep := (handleDecodedChunk_no_underrun npt now dur hnow).2
    cases i with
    | zero => simp [RootWeb.runSched, hstep]
    | succ j =>
      have hd' : ∀ p ∈ rest, p.2 = dur := fun q hq => hd q (List.mem_cons_of_mem _ hq)
      have hj : j < rest.length := by simpa using hi
      have hih := ih (npt + dur) hrest hd' j hj
      simp only [RootWeb.runSched, hstep, List.getElem?_cons_succ, hih]
      congr 1
      push_cast
      ring

/-- A run schedules exactly one start time per delivered frame (simple-js). -/
theorem simple_runSched_length (frames : List (ℤ × ℤ)) :
    ∀ npt : ℤ, (SimpleJs.runSched npt frames).length = frames.length := by
  induction frames with
  | nil => intro npt; simp [SimpleJs.runSched]
  | cons p rest ih =>
    obtain ⟨now, dur⟩ := p
    intro npt
    simp [SimpleJs.runSched, ih]

/-- With no underrun the simple-js cursor ends at `npt + length·d`. -/
theorem simple_finalNpt_no_underrun (d : ℤ) (frames : List (ℤ × ℤ)) :
    ∀ (npt : ℤ), noUnderrunB npt frames = true → (∀ p ∈ frames, p.2 = d) →
      SimpleJs.finalNpt npt frames = npt + (frames.length : ℤ) * d := by
  induction frames with
  | nil => intro npt _ _; simp [SimpleJs.finalNpt]
  | cons p rest ih =>
    obtain ⟨now, dur⟩ := p
    intro npt hnu hd
    obtain ⟨hnow, hrest⟩ := (noUnderrunB_cons npt now dur rest).mp hnu
    have hdur : dur = d := hd (now, dur) (List.mem_cons_self _ _)
    subst hdur
    have hstep := (handleDecodedChunk_no_underrun npt now dur hnow).1
    have hd' : ∀ p ∈ rest, p.2 = dur := fun q hq => hd q (List.mem_cons_of_mem _ hq)
    simp only [SimpleJs.finalNpt, hstep, ih (npt + dur) hrest hd', List.length_cons]
    push_cast
    ring

/-- With no underrun the root cursor ends at `npt + length·d`. -/
theorem root_finalNpt_no_underrun (d : ℤ) (frames : List (ℤ × ℤ)) :
    ∀ (npt : ℤ), noUnderrunB npt frames = true → (∀ p ∈ frames, p.2 = d) →
      RootWeb.finalNpt npt frames = npt + (frames.length : ℤ) * d := by
  induction frames with
  | nil => intro npt _ _; simp [RootWeb.finalNpt]
  | cons p rest ih =>
    obtain ⟨now, dur⟩ := p
    intro npt hnu hd
    obtain ⟨hnow, hrest⟩ := (noUnderrunB_cons npt now dur rest).mp hnu
    have hdur : dur = d := hd (now, dur) (List.mem_cons_self _ _)
    subst hdur
    have hstep := (handleDecodedChunk_no_underrun npt now dur hnow).2
    have hd' : ∀ p ∈ rest, p.2 = dur := fun q hq => hd q (List.mem_cons_of_mem _ hq)
    simp only [RootWeb.finalNpt, hstep, ih (npt + dur) hrest hd', List.length_cons]
    push_cast
    ring

/-- With no underrun the simple-js client never resynchronizes. -/
theorem simple_resyncCount_no_underrun (frames : List (ℤ × ℤ)) :
    ∀ (npt : ℤ), noUnderrunB npt frames = true →
      SimpleJs.resyncCount npt frames = 0 := by
  induction frames with
  | nil => intro npt _; simp [SimpleJs.resyncCount]
  | cons p rest ih =>
    obtain ⟨now, dur⟩ := p
    intro npt hnu
    obtain ⟨hnow, hrest⟩ := (noUnderrunB_cons npt now dur rest).mp hnu
    have hstep := (handleDecodedChunk_no_underrun npt now dur hnow).1
    simp only [SimpleJs.resyncCount, hstep, if_neg (not_lt.mpr hnow), ih (npt + dur) hrest]

/-- With no underrun the root client's `Math.max` never clamps to the clock. -/
theorem root_resyncCount_no_underrun (frames : List (ℤ × ℤ)) :
    ∀ (npt : ℤ), noUnderrunB npt frames = true →
      RootWeb.resyncCount npt frames = 0 := by
  induction frames with
  | nil => intro npt _; simp [RootWeb.resyncCount]
  | cons p rest ih =>
    obtain ⟨now, dur⟩ := p
    intro npt hnu
    obtain ⟨hnow, hrest⟩ := (noUnderrunB_cons npt now dur rest).mp hnu
    have hstep := (handleDecodedChunk_no_underrun npt now dur hnow).2
    simp only [RootWeb.resyncCount, hstep, if_neg (not_lt.mpr hnow), ih (npt + dur) hrest]

/-- Each simple-js scheduling step can only move the cursor forward when the
frame's duration is non-negative. -/
theorem simple_step_monotone (npt now dur : ℤ) (h : 0 ≤ dur) :
    npt ≤ (SimpleJs.handleDecodedChunk npt now dur).2 := by
  simp only [SimpleJs.handleDecodedChunk, SimpleJs.scheduleTimeOf]
  split <;> omega

/-- Each root scheduling step can only move the cursor forward when the
frame's duration is non-negative. -/
theorem root_step_monotone (npt now dur : ℤ) (h : 0 ≤ dur) :
    npt ≤ (RootWeb.handleDecodedChunk npt now dur).2 := by
  have hmax : npt ≤ max npt now := le_max_left npt now
  simp only [RootWeb.handleDecodedChunk, RootWeb.startAtOf]
  omega

/-- The first element of a simple-js cursor trace is the initial cursor. -/
theorem simple_nptTrace_head (npt : ℤ) (frames : List (ℤ × ℤ)) :
    (SimpleJs.nptTrace npt frames).head? = some npt := by
  cases frames with
  | nil => rfl
  | cons p rest => obtain ⟨now, dur⟩ := p; rfl

/-- The first element of a root cursor trace is the initial cursor. -/
theorem root_nptTrace_head (npt : ℤ) (frames : List (ℤ × ℤ)) :
    (RootWeb.nptTrace npt frames).head? = some npt := by
  cases frames with
  | nil => rfl
  | cons p rest => obtain ⟨now, dur⟩ := p; rfl

/-- With non-negative durations the simple-js cursor trace is monotonically
non-decreasing. -/
theorem simple_nptTrace_chain (frames : List (ℤ × ℤ)) :
    ∀ npt : ℤ, (∀ p ∈ frames, 0 ≤ p.2) →
      List.Chain' (· ≤ ·) (SimpleJs.nptTrace npt frames) := by
  induction frames with
  | nil => intro npt _; exact List.chain'_singleton npt
  | cons p rest ih =>
    obtain ⟨now, dur⟩ := p
    intro npt hpos
    have hdur : 0 ≤ dur := hpos (now, dur) (List.mem_cons_self _ _)
    have hrest : ∀ p ∈ rest, 0 ≤ p.2 := fun q hq => hpos q (List.mem_cons_of_mem _ hq)
    refine List.chain'_cons'.mpr ⟨?_, ih _ hrest⟩
    intro y hy
    rw [simple_nptTrace_head] at hy
    cases hy
    exact simple_step_monotone npt now dur hdur

/-- With non-negative durations the root cursor trace is monotonically
non-decreasing. -/
theorem root_nptTrace_chain (frames : List (ℤ × ℤ)) :
    ∀ npt : ℤ, (∀ p ∈ frames, 0 ≤ p.2) →
      List.Chain' (· ≤ ·) (RootWeb.nptTrace npt frames) := by
  induction frames with
  | nil => intro npt _; exact List.chain'_singleton npt
  | cons p rest ih =>
    obtain ⟨now, dur⟩ := p
    intro npt hpos
    have hdur : 0 ≤ dur := hpos (now, dur) (List.mem_cons_self _ _)
    have hrest : ∀ p ∈ rest, 0 ≤ p.2 := fun q hq => hpos q (List.mem_cons_of_mem _ hq)
    refine List.chain'_cons'.mpr ⟨?_, ih _ hrest⟩
    intro y hy
    rw [root_nptTrace_head] at hy
    cases hy
    exact root_step_monotone npt now dur hdur

/-! Helper lemmas about the simple-js receive loop. -/

/-- Every chunk the receive loop submits carries a sequence index at least
as large as the counter the loop started from. -/
theorem recvLoop_index_lb (events : List ReadEvent) :
    ∀ (count : ℕ) (c : EncodedAudioChunk),
      c ∈ (SimpleJs.recvLoop count events).1 → count ≤ c.index := by
  induction events with
  | nil => intro count c hc; simp [SimpleJs.recvLoop] at hc
  | cons e rest ih =>
    intro count c hc
    cases e with
    | done => simp [SimpleJs.recvLoop] at hc
    | err => simp [SimpleJs.recvLoop] at hc
    | data len st =>
      by_cases hl : 0 < len
      · by_cases hst : st = DecoderState.configured
        · simp only [SimpleJs.recvLoop, SimpleJs.processRead, if_pos hl, if_pos hst,
            Option.toList_some, List.singleton_append, List.mem_cons] at hc
          rcases hc with hc | hc
          · subst hc; exact Nat.le_refl _
          · exact Nat.le_of_succ_le (ih (count + 1) c hc)
        · simp only [SimpleJs.recvLoop, SimpleJs.processRead, if_pos hl, if_neg hst,
            Option.toList_none, List.nil_append] at hc
          exact Nat.le_of_succ_le (ih (count + 1) c hc)
      · simp only [SimpleJs.recvLoop, SimpleJs.processRead, if_neg hl,
          Option.toList_none, List.nil_append] at hc
        exact ih count c hc

/-- The sequence indices of the chunks submitted by the receive loop are
strictly increasing, in submission order. -/
theorem recvLoop_index_chain (events : List ReadEvent) :
    ∀ count : ℕ,
      List.Chain' (fun a b => a.index < b.index) (SimpleJs.recvLoop count events).1 := by
  induction events with
  | nil => intro count; simp [SimpleJs.recvLoop]
  | cons e rest ih =>
    intro count
    cases e with
    | done => simp [SimpleJs.recvLoop]
    | err => simp [SimpleJs.recvLoop]
    | data len st =>
      by_cases hl : 0 < len
      · by_cases hst : st = DecoderState.configured
        · simp only [SimpleJs.recvLoop, SimpleJs.processRead, if_pos hl, if_pos hst,
            Option.toList_some, List.singleton_append]
          refine List.chain'_cons'.mpr ⟨?_, ih (count + 1)⟩
          intro y hy
          have hmem : y ∈ (SimpleJs.recvLoop (count + 1) rest).1 :=
            List.mem_of_mem_head? hy
          have := recvLoop_index_lb rest (count + 1) y hmem
          simp only [SimpleJs.mkChunk]
          omega
        · simp only [SimpleJs.recvLoop, SimpleJs.processRead, if_pos hl, if_neg hst,
            Option.toList_none, List.nil_append]
          exact ih (count + 1)
      · simp only [SimpleJs.recvLoop, SimpleJs.processRead, if_neg hl,
          Option.toList_none, List.nil_append]
        exact ih count

/-- Every chunk the receive loop submits carries the synthetic timestamp
`index * FRAME_DURATION_MS * 1000`. -/
theorem recvLoop_timestamp_synthetic (events : List ReadEvent) :
    ∀ (count : ℕ) (c : EncodedAudioChunk),
      c ∈ (SimpleJs.recvLoop count events).1 →
      c.timestamp = c.index * (FRAME_DURATION_MS * 1000) := by
  induction events with
  | nil => intro count c hc; simp [SimpleJs.recvLoop] at hc
  | cons e rest ih =>
    intro count c hc
    cases e with
    | done => simp [SimpleJs.recvLoop] at hc
    | err => simp [SimpleJs.recvLoop] at hc
    | data len st =>
      by_cases hl : 0 < len
      · by_cases hst : st = DecoderState.configured
        · simp only [SimpleJs.recvLoop, SimpleJs.processRead, if_pos hl, if_pos hst,
            Option.toList_some, List.singleton_append, List.mem_cons] at hc
          rcases hc with hc | hc
          · subst hc; rfl
          · exact ih (count + 1) c hc
        · simp only [SimpleJs.recvLoop, SimpleJs.processRead, if_pos hl, if_neg hst,
            Option.toList_none, List.nil_append] at hc
          exact ih (count + 1) c hc
      · simp only [SimpleJs.recvLoop, SimpleJs.processRead, if_neg hl,
          Option.toList_none, List.nil_append] at hc
        exact ih count c hc

/-! Helper lemmas about the modelled ring buffer. -/

/-- `push` preserves the capacity field. -/
theorem RingBuffer.push_capacity {α : Type} (rb : RingBuffer α) (x : α) :
    (rb.push x).capacity = rb.capacity := rfl

/-- `pushAll` preserves the capacity field. -/
theorem RingBuffer.pushAll_capacity {α : Type} (xs : List α) :
    ∀ rb : RingBuffer α, (rb.pushAll xs).capacity = rb.capacity := by
  induction xs with
  | nil => intro rb; rfl
  | cons x xs ih =>
    intro rb
    show ((rb.push x).pushAll xs).capacity = rb.capacity
    rw [ih (rb.push x), RingBuffer.push_capacity]

/-- The contents of a buffer that started within capacity and absorbed a
sequence of pushes: the concatenation of the old contents and the pushed
items, truncated at the oldest end to the capacity. -/
theorem RingBuffer.pushAll_data {α : Type} (xs : List α) :
    ∀ rb : RingBuffer α, rb.data.length ≤ rb.capacity →
      (rb.pushAll xs).data =
        (rb.data ++ xs).drop ((rb.data ++ xs).length - rb.capacity) := by
  induction xs with
  | nil =>
    intro rb hle
    simp only [RingBuffer.pushAll, List.foldl_nil, List.append_nil]
    simp [Nat.sub_eq_zero_of_le hle]
  | cons x xs ih =>
    intro rb hle
    have hpush : (rb.push x).data = (rb.data ++ [x]).drop (rb.data.length + 1 - rb.capacity) := rfl
    have hlen : (rb.push x).data.length = rb.data.length + 1 - (rb.data.length + 1 - rb.capacity) := by
      rw [hpush, List.length_drop, List.length_append, List.length_singleton]
    have hle' : (rb.push x).data.length ≤ (rb.push x).capacity := by
      rw [RingBuffer.push_capacity, hlen]; omega
    have hmain := ih (rb.push x) hle'
    show ((rb.push x).pushAll xs).data = (rb.data ++ x :: xs).drop ((rb.data ++ x :: xs).length - rb.capacity)
    rw [hmain, RingBuffer.push_capacity, hpush]
    rw [← List.drop_append_of_le_length (by simp : rb.data.length + 1 - rb.capacity ≤ (rb.data ++ [x]).length)]
    rw [List.drop_drop]
    have harr : rb.data ++ [x] ++ xs = rb.data ++ x :: xs := by
      rw [List.append_assoc, List.singleton_append]
    rw [harr]
    have hidx : rb.data.length + 1 - rb.capacity +
        ((List.drop (rb.data.length + 1 - rb.capacity) (rb.data ++ x :: xs)).length - rb.capacity) =
        (rb.data ++ x :: xs).length - rb.capacity := by
      rw [List.length_drop]
      simp only [List.length_append, List.length_cons]
      omega
    rw [hidx]

/-- A buffer filled from empty holds the pushed items truncated at the
oldest end to the capacity: exactly the last `capacity` items (all of them
while fewer were pushed), in insertion order. -/
theorem RingBuffer.pushAll_empty_data {α : Type} (capacity : ℕ) (xs : List α) :
    ((RingBuffer.empty α capacity).pushAll xs).data
        = xs.drop (xs.length - capacity) := by
  rw [RingBuffer.pushAll_data xs (RingBuffer.empty α capacity) (by simp [RingBuffer.empty])]
  simp [RingBuffer.empty]

/-- The occupancy of a buffer filled from empty never exceeds the capacity. -/
theorem RingBuffer.pushAll_empty_len_le {α : Type} (capacity : ℕ) (xs : List α) :
    ((RingBuffer.empty α capacity).pushAll xs).len ≤ capacity := by
  rw [RingBuffer.len,
    RingBuffer.pushAll_data xs (RingBuffer.empty α capacity) (by simp [RingBuffer.empty])]
  simp only [RingBuffer.empty, List.nil_append, List.length_drop]
  omega

/-! Claim theorems. -/

/-- C1, counterexample to the claim as stated: the claim asserts that an
underrun frame is scheduled at `now + ε` with `ε = 5 ms`, for every decoded
frame processed by the Playback Scheduler — but the root web client
(`src/web/index.js` line 55) schedules it at `Math.max(nextPlayTime, now)
= now` with no margin.  Concretely: cursor `0`, clock `1000000 μs` (an
underrun since `0 < 1000000`), 5 ms frame — the root client starts the
frame at `1000000`, not at `1000000 + 5000`. -/
theorem C1_counterexample_root_no_margin :
    (0 : ℤ) < 1000000 ∧
      (RootWeb.handleDecodedChunk 0 1000000 5000).1 ≠ 1000000 + 5000 := by
  constructor
  · decide
  · decide

/-- C1 (amended): when the cursor has fallen behind the device clock
(`nextPlayTime < now`, an underrun), the simple-js client schedules the
frame at `now + 5 ms` (`5000 μs`) while the root web client schedules it at
exactly `now` with no safety margin; neither client schedules at the stale
`nextPlayTime` value (both scheduled times strictly exceed it). -/
theorem C1_underrun_resync (npt now dur : ℤ) (h : npt < now) :
    (SimpleJs.handleDecodedChunk npt now dur).1 = now + 5000
    ∧ (RootWeb.handleDecodedChunk npt now dur).1 = now
    ∧ npt < (SimpleJs.handleDecodedChunk npt now dur).1
    ∧ npt < (RootWeb.handleDecodedChunk npt now dur).1 := by
  have h1 : SimpleJs.scheduleTimeOf npt now = now + 5000 := by
    simp [SimpleJs.scheduleTimeOf, if_pos h]
  have h2 : RootWeb.startAtOf npt now = now := max_eq_right (le_of_lt h)
  refine ⟨?_, ?_, ?_, ?_⟩ <;>
    simp [SimpleJs.handleDecodedChunk, RootWeb.handleDecodedChunk, h1, h2] <;>
    omega

/-- C1 witness: the amended theorem applied at cursor `0`, clock
`1000000 μs`, 5 ms frame. -/
theorem C1_underrun_resync_witness :
    (SimpleJs.handleDecodedChunk 0 1000000 5000).1 = 1000000 + 5000
    ∧ (RootWeb.handleDecodedChunk 0 1000000 5000).1 = 1000000 :=
  ⟨(C1_underrun_resync 0 1000000 5000 (by decide)).1,
   (C1_underrun_resync 0 1000000 5000 (by decide)).2.1⟩

/-- C2: with no underrun (`noUnderrunB`) and all frames of duration `d`,
both clients schedule frame `n` at exactly `start + n·d`, the cursor ends
at `start + length·d` (so `100` frames of `5 ms` span exactly `500 ms`),
and no resynchronization occurs. -/
theorem C2_gapless_schedule (start d : ℤ) (frames : List (ℤ × ℤ)) (n : ℕ)
    (hnu : noUnderrunB start frames = true)
    (hd : ∀ p ∈ frames, p.2 = d)
    (hn : n < frames.length) :
    (SimpleJs.runSched start frames)[n]? = some (start + (n : ℤ) * d)
    ∧ (RootWeb.runSched start frames)[n]? = some (start + (n : ℤ) * d)
    ∧ SimpleJs.finalNpt start frames = start + (frames.length : ℤ) * d
    ∧ RootWeb.finalNpt start frames = start + (frames.length : ℤ) * d
    ∧ SimpleJs.resyncCount start frames = 0
    ∧ RootWeb.resyncCount start frames = 0 :=
  ⟨simple_runSched_gapless d frames start hnu hd n hn,
   root_runSched_gapless d frames start hnu hd n hn,
   simple_finalNpt_no_underrun d frames start hnu hd,
   root_finalNpt_no_underrun d frames start hnu hd,
   simple_resyncCount_no_underrun frames start hnu,
   root_resyncCount_no_underrun frames start hnu⟩

/-- C2 witness: 100 frames of `5000 μs` each, zero jitter (clock pinned at
`0`): frame 99 starts at `99 · 5000 μs`, the schedule spans
`100 · 5000 = 500000 μs = 500 ms`, and zero resynchronizations occur. -/
theorem C2_gapless_schedule_witness :
    (SimpleJs.runSched 0 (List.replicate 100 ((0 : ℤ), 5000)))[99]?
        = some (0 + ((99 : ℕ) : ℤ) * 5000)
    ∧ SimpleJs.finalNpt 0 (List.replicate 100 ((0 : ℤ), 5000))
        = 0 + (((List.replicate 100 ((0 : ℤ), 5000)).length : ℕ) : ℤ) * 5000
    ∧ SimpleJs.resyncCount 0 (List.replicate 100 ((0 : ℤ), 5000)) = 0 :=
  ⟨(C2_gapless_schedule 0 5000 (List.replicate 100 ((0 : ℤ), 5000)) 99
      (by decide) (by decide) (by decide)).1,
   (C2_gapless_schedule 0 5000 (List.replicate 100 ((0 : ℤ), 5000)) 99
      (by decide) (by decide) (by decide)).2.2.1,
   (C2_gapless_schedule 0 5000 (List.replicate 100 ((0 : ℤ), 5000)) 99
      (by decide) (by decide) (by decide)).2.2.2.2.1⟩

/-- C3: in both clients the cursor is initialized to the device clock at
session start; each scheduling step advances it to `scheduledTime +
duration` unconditionally (the step function is the sole operation on it);
and over any run with non-negative frame durations the successive cursor
values are monotonically non-decreasing. -/
theorem C3_cursor_monotone (npt now dur : ℤ) (frames : List (ℤ × ℤ))
    (hdur : 0 ≤ dur) (hframes : ∀ p ∈ frames, 0 ≤ p.2) :
    SimpleJs.initNextPlayTime now = now
    ∧ RootWeb.initNextPlayTime now = now
    ∧ (SimpleJs.handleDecodedChunk npt now dur).2
        = (SimpleJs.handleDecodedChunk npt now dur).1 + dur
    ∧ (RootWeb.handleDecodedChunk npt now dur).2
        = (RootWeb.handleDecodedChunk npt now dur).1 + dur
    ∧ npt ≤ (SimpleJs.handleDecodedChunk npt now dur).2
    ∧ npt ≤ (RootWeb.handleDecodedChunk npt now dur).2
    ∧ List.Chain' (· ≤ ·) (SimpleJs.nptTrace npt frames)
    ∧ List.Chain' (· ≤ ·) (RootWeb.nptTrace npt frames) :=
  ⟨rfl, rfl, rfl, rfl,
   simple_step_monotone npt now dur hdur,
   root_step_monotone npt now dur hdur,
   simple_nptTrace_chain frames npt hframes,
   root_nptTrace_chain frames npt hframes⟩

/-- C3 witness: the cursor facts applied at cursor `0`, clock `0`, one
`5000 μs` frame. -/
theorem C3_cursor_monotone_witness :
    SimpleJs.initNextPlayTime 0 = 0
    ∧ RootWeb.initNextPlayTime 0 = 0
    ∧ (SimpleJs.handleDecodedChunk 0 0 5000).2
        = (SimpleJs.handleDecodedChunk 0 0 5000).1 + 5000
    ∧ (RootWeb.handleDecodedChunk 0 0 5000).2
        = (RootWeb.handleDecodedChunk 0 0 5000).1 + 5000
    ∧ (0 : ℤ) ≤ (SimpleJs.handleDecodedChunk 0 0 5000).2
    ∧ (0 : ℤ) ≤ (RootWeb.handleDecodedChunk 0 0 5000).2
    ∧ List.Chain' (· ≤ ·) (SimpleJs.nptTrace 0 [((0 : ℤ), 5000)])
    ∧ List.Chain' (· ≤ ·) (RootWeb.nptTrace 0 [((0 : ℤ), 5000)]) :=
  C3_cursor_monotone 0 0 5000 [((0 : ℤ), 5000)] (by decide) (by decide)

/-- C4: neither client ever schedules a frame strictly before the device
clock reading taken during the scheduling decision — in the simple-js
client this holds in both the resynchronization branch (`now + 5000 ≥ now`)
and the gapless branch (`nextPlayTime ≥ now` there), and in the root client
because `Math.max(nextPlayTime, now) ≥ now`. -/
theorem C4_never_in_past (npt now dur : ℤ) :
    now ≤ (SimpleJs.handleDecodedChunk npt now dur).1
    ∧ now ≤ (RootWeb.handleDecodedChunk npt now dur).1 := by
  constructor
  · simp only [SimpleJs.handleDecodedChunk, SimpleJs.scheduleTimeOf]
    split <;> omega
  · simp only [RootWeb.handleDecodedChunk, RootWeb.startAtOf]
    exact le_max_right npt now

/-- C5, counterexample to the claim as stated: the claim asserts that every
accepted read is handed to the decoder with the synthetic timestamp
`index * frame_duration` — but the root web client (`src/web/index.js`
line 94) stamps chunks with `audioContext.currentTime * 1000000` and keeps
no counter.  Concretely, at device time `1 s` the first accepted read
(sequence index `0`) gets timestamp `1000000 μs`, not
`0 * FRAME_DURATION_MS * 1000 = 0`. -/
theorem C5_counterexample_root_clock_timestamp :
    RootWeb.chunkTimestampUs 1 ≠ ((0 : ℕ) : ℚ) * ((FRAME_DURATION_MS : ℚ) * 1000) := by
  norm_num [RootWeb.chunkTimestampUs, FRAME_DURATION_MS]

/-- C5 (amended): in the simple-js client every non-empty read accepted
while the decoder is configured produces a chunk indexed by the local
counter (which is then incremented), with the synthetic decoder timestamp
`index * FRAME_DURATION_MS * 1000`; across any receive-loop run the
submitted chunks carry strictly increasing indices and every submitted
chunk satisfies the synthetic-timestamp equation.  The root web client
instead stamps chunks with the device clock (see the counterexample). -/
theorem C5_synthetic_timestamps (count len : ℕ) (events : List ReadEvent)
    (hlen : 0 < len) :
    SimpleJs.processRead count DecoderState.configured len
        = (some (SimpleJs.mkChunk count len), count + 1)
    ∧ (SimpleJs.mkChunk count len).index = count
    ∧ (SimpleJs.mkChunk count len).timestamp = count * (FRAME_DURATION_MS * 1000)
    ∧ List.Chain' (fun a b => a.index < b.index) (SimpleJs.recvLoop count events).1
    ∧ ∀ c ∈ (SimpleJs.recvLoop count events).1,
        c.timestamp = c.index * (FRAME_DURATION_MS * 1000) := by
  refine ⟨?_, rfl, rfl, recvLoop_index_chain events count,
    fun c hc => recvLoop_timestamp_synthetic events count c hc⟩
  simp [SimpleJs.processRead, if_pos hlen]

/-- C5 witness: counter `0`, a 1-byte read, and a two-read event list. -/
theorem C5_synthetic_timestamps_witness :
    SimpleJs.processRead 0 DecoderState.configured 1
        = (some (SimpleJs.mkChunk 0 1), 0 + 1)
    ∧ (SimpleJs.mkChunk 0 1).index = 0
    ∧ (SimpleJs.mkChunk 0 1).timestamp = 0 * (FRAME_DURATION_MS * 1000)
    ∧ List.Chain' (fun a b => a.index < b.index)
        (SimpleJs.recvLoop 0
          [ReadEvent.data 1 DecoderState.configured,
           ReadEvent.data 2 DecoderState.configured]).1
    ∧ ∀ c ∈ (SimpleJs.recvLoop 0
          [ReadEvent.data 1 DecoderState.configured,
           ReadEvent.data 2 DecoderState.configured]).1,
        c.timestamp = c.index * (FRAME_DURATION_MS * 1000) :=
  C5_synthetic_timestamps 0 1
    [ReadEvent.data 1 DecoderState.configured,
     ReadEvent.data 2 DecoderState.configured] (by decide)

/-- C6, counterexample to the claim as stated: the claim asserts that a
zero-length read ends the session cleanly with no further frames produced —
but the receive loop (`if (value && value.byteLength > 0)`) merely skips a
zero-length read and keeps reading.  Concretely, after a zero-length read
followed by a 3-byte read, one further chunk is submitted and the loop has
not taken the clean-closure branch. -/
theorem C6_counterexample_zero_length_read_continues :
    (SimpleJs.recvLoop 0
        [ReadEvent.data 0 DecoderState.configured,
         ReadEvent.data 3 DecoderState.configured]).1.length = 1
    ∧ (SimpleJs.recvLoop 0
        [ReadEvent.data 0 DecoderState.configured,
         ReadEvent.data 3 DecoderState.configured]).2 ≠ LoopExit.closed := by
  constructor
  · decide
  · decide

/-- C6 (amended): a stream-closure signal (`done`) ends the session cleanly
— the loop exits at once and no further frames are produced; a
transport-level error aborts the session as a terminal condition with no
internal retry (the remaining events are never processed); a zero-length
read, however, produces no frame but the loop continues with the next
read. -/
theorem C6_session_termination (count : ℕ) (st : DecoderState)
    (rest : List ReadEvent) :
    SimpleJs.recvLoop count (ReadEvent.done :: rest) = ([], LoopExit.closed)
    ∧ SimpleJs.recvLoop count (ReadEvent.err :: rest) = ([], LoopExit.errored)
    ∧ SimpleJs.recvLoop count (ReadEvent.data 0 st :: rest)
        = SimpleJs.recvLoop count rest := by
  refine ⟨rfl, rfl, ?_⟩
  simp [SimpleJs.recvLoop, SimpleJs.processRead]

/-- C7: a frame that arrives while the decoder is not in the `configured`
state is dropped — no chunk is submitted for it, the counter still
advances, and the loop goes on to the next read unchanged (each later frame
gets a fresh check). -/
theorem C7_unconfigured_decoder_drops (count len : ℕ) (st : DecoderState)
    (rest : List ReadEvent) (hst : st ≠ DecoderState.configured)
    (hlen : 0 < len) :
    (SimpleJs.processRead count st len).1 = none
    ∧ (SimpleJs.processRead count st len).2 = count + 1
    ∧ SimpleJs.recvLoop count (ReadEvent.data len st :: rest)
        = SimpleJs.recvLoop (count + 1) rest := by
  have hpr : SimpleJs.processRead count st len = (none, count + 1) := by
    simp [SimpleJs.processRead, if_pos hlen, hst]
  refine ⟨by rw [hpr], by rw [hpr], ?_⟩
  simp [SimpleJs.recvLoop, hpr]

/-- C7 witness: a 1-byte read with the decoder `closed`. -/
theorem C7_unconfigured_decoder_drops_witness :
    (SimpleJs.processRead 0 DecoderState.closed 1).1 = none
    ∧ (SimpleJs.processRead 0 DecoderState.closed 1).2 = 0 + 1
    ∧ SimpleJs.recvLoop 0 [ReadEvent.data 1 DecoderState.closed]
        = SimpleJs.recvLoop (0 + 1) [] :=
  C7_unconfigured_decoder_drops 0 1 DecoderState.closed [] (by decide) (by decide)

/-- C8: when one frame (index `k`) of a fixed-duration stream is never
delivered to the scheduler (e.g. it failed to decode), the scheduler —
which is a function of the delivered frames only — schedules exactly
`n - 1` frames, and delivered frame `i` starts at `start + i·d`: the
schedule is the gapless schedule of the delivered frames with no hole
reserved for the missing one, so the frames after the failure chain
directly onto the end of the frame before it. -/
theorem C8_decode_failure_skips (start d : ℤ) (frames : List (ℤ × ℤ)) (k i : ℕ)
    (hk : k < frames.length) (hd : ∀ p ∈ frames, p.2 = d)
    (hnu : noUnderrunB start (frames.eraseIdx k) = true)
    (hi : i < frames.length - 1) :
    (SimpleJs.runSched start (frames.eraseIdx k)).length = frames.length - 1
    ∧ (SimpleJs.runSched start (frames.eraseIdx k))[i]?
        = some (start + (i : ℤ) * d) := by
  have hlen : (frames.eraseIdx k).length = frames.length - 1 := by
    rw [List.length_eraseIdx]
    simp [hk]
  have hd' : ∀ p ∈ frames.eraseIdx k, p.2 = d := fun p hp =>
    hd p (List.Sublist.subset (List.eraseIdx_sublist frames k) hp)
  refine ⟨?_, ?_⟩
  · rw [simple_runSched_length (frames.eraseIdx k) start, hlen]
  · exact simple_runSched_gapless d (frames.eraseIdx k) start hnu hd' i (by omega)

/-- C8 witness: three 5 ms frames with the middle one dropped — two frames
are scheduled and the second delivered frame starts right at `5000 μs`,
the end of the first. -/
theorem C8_decode_failure_skips_witness :
    (SimpleJs.runSched 0 ((List.replicate 3 ((0 : ℤ), 5000)).eraseIdx 1)).length
        = (List.replicate 3 ((0 : ℤ), 5000)).length - 1
    ∧ (SimpleJs.runSched 0 ((List.replicate 3 ((0 : ℤ), 5000)).eraseIdx 1))[1]?
        = some (0 + ((1 : ℕ) : ℤ) * 5000) :=
  C8_decode_failure_skips 0 5000 (List.replicate 3 ((0 : ℤ), 5000)) 1 1
    (by decide) (by decide) (by decide) (by decide)

/-- C9: for every sequence of pushes into a ring buffer of capacity `C`
filled from empty, the occupancy after any first segment of the pushes
never exceeds `C`, and after more than `C` pushes the buffer holds exactly
the last `C` pushed items in insertion order. -/
theorem C9_ring_buffer_bounded {α : Type} (capacity n : ℕ) (xs : List α)
    (hmore : capacity < xs.length) :
    ((RingBuffer.empty α capacity).pushAll (xs.take n)).len ≤ capacity
    ∧ ((RingBuffer.empty α capacity).pushAll xs).data
        = xs.drop (xs.length - capacity)
    ∧ ((RingBuffer.empty α capacity).pushAll xs).data.length = capacity := by
  refine ⟨RingBuffer.pushAll_empty_len_le capacity (xs.take n),
    RingBuffer.pushAll_empty_data capacity xs, ?_⟩
  rw [RingBuffer.pushAll_empty_data capacity xs, List.length_drop]
  omega

/-- C9 witness: capacity `2`, pushes `[1, 2, 3]` — occupancy stays `≤ 2`
and the final contents are the last two items `[2, 3]` in order. -/
theorem C9_ring_buffer_bounded_witness :
    ((RingBuffer.empty ℕ 2).pushAll ([1, 2, 3].take 2)).len ≤ 2
    ∧ ((RingBuffer.empty ℕ 2).pushAll [1, 2, 3]).data
        = [1, 2, 3].drop ([1, 2, 3].length - 2)
    ∧ ((RingBuffer.empty ℕ 2).pushAll [1, 2, 3]).data.length = 2 :=
  C9_ring_buffer_bounded 2 2 [1, 2, 3] (by decide)

/-- C10: the two clients' scheduling functions agree whenever the cursor is
at or ahead of the clock (both then schedule at `nextPlayTime`); on an
underrun (`nextPlayTime < now`) the simple-js client schedules at
`now + 5000 μs` (`0.005 s`) while the root client schedules at exactly
`now`, so their scheduled times differ by exactly `5000 μs`. -/
theorem C10_clients_equivalence (npt now : ℤ) :
    (now ≤ npt →
      SimpleJs.scheduleTimeOf npt now = npt ∧ RootWeb.startAtOf npt now = npt)
    ∧ (npt < now →
      SimpleJs.scheduleTimeOf npt now = now + 5000
      ∧ RootWeb.startAtOf npt now = now
      ∧ SimpleJs.scheduleTimeOf npt now - RootWeb.startAtOf npt now = 5000) := by
  constructor
  · intro h
    exact ⟨simple_scheduleTimeOf_no_underrun npt now h,
      root_startAtOf_no_underrun npt now h⟩
  · intro h
    have h1 : SimpleJs.scheduleTimeOf npt now = now + 5000 := by
      simp [SimpleJs.scheduleTimeOf, if_pos h]
    have h2 : RootWeb.startAtOf npt now = now := max_eq_right (le_of_lt h)
    refine ⟨h1, h2, ?_⟩
    rw [h1, h2]
    ring

/-- C10 witness: agreement at cursor `7`, clock `3`; divergence by exactly
`5000 μs` at cursor `0`, clock `1000000`. -/
theorem C10_clients_equivalence_witness :
    (SimpleJs.scheduleTimeOf 7 3 = 7 ∧ RootWeb.startAtOf 7 3 = 7)
    ∧ (SimpleJs.scheduleTimeOf 0 1000000 = 1000000 + 5000
       ∧ RootWeb.startAtOf 0 1000000 = 1000000
       ∧ SimpleJs.scheduleTimeOf 0 1000000 - RootWeb.startAtOf 0 1000000 = 5000) :=
  ⟨(C10_clients_equivalence 7 3).1 (by decide),
   (C10_clients_equivalence 0 1000000).2 (by decide)⟩

end PipewireStreaming
